import Mathlib

/-!
# Verification of papaya's serde bridge (src/serde_impls.rs)

A shallow embedding of the serde `Serialize`/`Deserialize` implementations
for the concurrent `HashMap` and `HashSet` containers, together with proofs
of the specified round-trip, duplicate-handling, hint-independence and
error-propagation properties.

The file `src/serde_impls.rs` is the authority for the bridge logic
(the `MapVisitor`/`SetVisitor` loops and the `serialize` implementations).
The containers themselves live elsewhere in the repository, so their
operations (insert, iteration, constructors, builder) are modelled from the
specification, as noted on each definition.
-/

deriving instance DecidableEq for Except

namespace Papaya

/-- Modelled from the spec: the concurrent `HashMap` (§3 Data Model) is a
finite associative container with unique keys and no relevant iteration
order; `entries` is its contents as the list of pairs in iteration order,
and `capacity` records the pre-sized backing storage requested at
construction (§4.2: "pre-size backing storage for that many entries").
The hasher is always `S::default()` in the bridge, so it carries no
information and is omitted. -/
structure HashMap (K V : Type) where
  entries : List (K × V)
  capacity : Nat
deriving DecidableEq

/-- Modelled from the spec: the reclamation scope of a container (§3): either
exclusively owned, or a shared reference-counted handle; for a shared handle
we record whether it was newly created (`Collector::new()` wrapped in a
fresh `Arc`) rather than supplied by a caller. -/
inductive ReclamationScope
  | exclusive
  | shared (newlyCreated : Bool)
deriving DecidableEq

/-- Modelled from the spec: the concurrent `HashSet` (§3): a finite container
of unique elements, with its capacity and its reclamation-scope ownership
mode, which "is fixed at construction and cannot change afterward". -/
structure HashSet (K : Type) where
  elems : List K
  capacity : Nat
  scope : ReclamationScope
deriving DecidableEq

/-- Lookup in an association list: the value of the first pair whose key is
`k` (the container's `get`; on the unique-keys invariant the first
occurrence is the only one). -/
def mapGet {K V : Type} [DecidableEq K] (l : List (K × V)) (k : K) : Option V :=
  (l.find? (fun p => decide (p.1 = k))).map (fun p => p.2)

/-- The key set of an association list. -/
def mapKeys {K V : Type} (l : List (K × V)) : List K :=
  l.map Prod.fst

/-- Modelled from the spec: `insert(key, value, guard)` on the map —
"always succeeds", with "overwrite semantics on repeat key" (§4.2, §6):
replace the value at an existing key, otherwise append the new pair. -/
def listInsert {K V : Type} [DecidableEq K] : List (K × V) → K → V → List (K × V)
  | [], k, v => [(k, v)]
  | p :: l, k, v => if p.1 = k then (k, v) :: l else p :: listInsert l k v

/-- Modelled from the spec: `insert(key, guard)` on the set — idempotent on
duplicates (§3: "duplicate elements during set construction collapse"). -/
def listSetInsert {K : Type} [DecidableEq K] (l : List K) (k : K) : List K :=
  if k ∈ l then l else l ++ [k]

/-- Modelled from the spec: `HashMap::with_capacity_and_hasher(size, S::default())`
— an empty map pre-sized for `size` entries (§4.2). -/
def HashMap.withCapacityAndHasher (K V : Type) (size : Nat) : HashMap K V :=
  { entries := [], capacity := size }

/-- Modelled from the spec: `HashMap::default()` — "empty default
construction" (§4.2). -/
def HashMap.defaultMap (K V : Type) : HashMap K V :=
  { entries := [], capacity := 0 }

/-- Modelled from the spec: `HashSet::with_capacity_and_hasher(size, S::default())`
— an empty set with a fresh exclusive reclamation scope (§4.3
private-scope mode: "direct capacity+hasher construction"). -/
def HashSet.withCapacityAndHasher (K : Type) (size : Nat) : HashSet K :=
  { elems := [], capacity := size, scope := ReclamationScope.exclusive }

/-- Modelled from the spec: `HashSet::default()` (§4.3 private-scope mode). -/
def HashSet.defaultSet (K : Type) : HashSet K :=
  { elems := [], capacity := 0, scope := ReclamationScope.exclusive }

/-- Modelled from the spec: the configuration-style construction path (§6:
"accepting hasher, capacity, and an optional shared reclamation-scope
handle"). `hasherSet` records that a hasher was supplied; `sharedHandle`
holds, when present, whether the shared collector handle is newly created. -/
structure SetBuilder where
  hasherSet : Bool
  sharedHandle : Option Bool
  capacity : Nat
deriving DecidableEq

/-- Modelled from the spec: `HashSet::builder()` — the empty configuration. -/
def HashSet.builder : SetBuilder :=
  { hasherSet := false, sharedHandle := none, capacity := 0 }

/-- Modelled from the spec: the builder's `hasher(S::default())` step. -/
def SetBuilder.hasher (b : SetBuilder) : SetBuilder :=
  { b with hasherSet := true }

/-- Modelled from the spec: the builder's `shared_collector(handle)` step;
the argument records whether the handle is newly created
(`Arc::new(Collector::new())`) or was supplied by the caller. -/
def SetBuilder.sharedCollector (b : SetBuilder) (newlyCreated : Bool) : SetBuilder :=
  { b with sharedHandle := some newlyCreated }

/-- Modelled from the spec: the builder's `capacity(size)` step. -/
def SetBuilder.withCapacity (b : SetBuilder) (size : Nat) : SetBuilder :=
  { b with capacity := size }

/-- Modelled from the spec: the builder's `build()` step, producing a set in
shared-scope mode when a shared collector handle was configured. -/
def SetBuilder.build (b : SetBuilder) (K : Type) : HashSet K :=
  { elems := []
    capacity := b.capacity
    scope := match b.sharedHandle with
      | some f => ReclamationScope.shared f
      | none => ReclamationScope.exclusive }

/-- The decoder-driven entry stream seen by a visitor: each `next_entry()` /
`next_element()` call either yields an item or fails with the decoder's
error `E`; items after the first error are never requested. -/
def firstError {E α : Type} : List (Except E α) → Option E
  | [] => none
  | Except.ok _ :: rest => firstError rest
  | Except.error e :: _ => some e

/-- The `while let Some((key, value)) = access.next_entry()?` loop of
`MapVisitor::visit_map` (src/serde_impls.rs:94-99): insert each incoming
pair under the single pinned guard; a decoder error aborts the loop and
propagates unchanged. -/
def buildMapLoop {K V E : Type} [DecidableEq K] (acc : List (K × V)) :
    List (Except E (K × V)) → Except E (List (K × V))
  | [] => Except.ok acc
  | Except.ok p :: rest => buildMapLoop (listInsert acc p.1 p.2) rest
  | Except.error e :: _ => Except.error e

/-- `MapVisitor::visit_map` (src/serde_impls.rs:85-102): pre-size from the
decoder's size hint when present (`with_capacity_and_hasher`) or start from
`default()`, pin once, insert every incoming pair, return the map. -/
def visitMap {K V E : Type} [DecidableEq K] (hint : Option Nat)
    (s : List (Except E (K × V))) : Except E (HashMap K V) :=
  let values : HashMap K V := match hint with
    | some size => HashMap.withCapacityAndHasher K V size
    | none => HashMap.defaultMap K V
  Except.map (fun es => { values with entries := es }) (buildMapLoop values.entries s)

/-- The `while let Some(key) = access.next_element()?` loop shared by both
`SetVisitor::visit_seq` implementations (src/serde_impls.rs:202-207 and
241-246). -/
def buildSetLoop {K E : Type} [DecidableEq K] (acc : List K) :
    List (Except E K) → Except E (List K)
  | [] => Except.ok acc
  | Except.ok k :: rest => buildSetLoop (listSetInsert acc k) rest
  | Except.error e :: _ => Except.error e

/-- `SetVisitor::<K, S, Collector>::visit_seq` (src/serde_impls.rs:193-210):
private-scope mode — pre-size via `with_capacity_and_hasher` from the hint
or start from `default()`, then insert every incoming element. -/
def visitSeqPrivate {K E : Type} [DecidableEq K] (hint : Option Nat)
    (s : List (Except E K)) : Except E (HashSet K) :=
  let values : HashSet K := match hint with
    | some size => HashSet.withCapacityAndHasher K size
    | none => HashSet.defaultSet K
  Except.map (fun es => { values with elems := es }) (buildSetLoop values.elems s)

/-- `SetVisitor::<K, S, Arc<Collector>>::visit_seq` (src/serde_impls.rs:224-250):
shared-scope mode — build through
`HashSet::builder().hasher(S::default()).shared_collector(Arc::new(Collector::new())).capacity(size).build()`
(capacity 0 when no hint), then insert every incoming element. -/
def visitSeqShared {K E : Type} [DecidableEq K] (hint : Option Nat)
    (s : List (Except E K)) : Except E (HashSet K) :=
  let values : HashSet K := match hint with
    | some size =>
        ((((HashSet.builder).hasher).sharedCollector true).withCapacity size).build K
    | none =>
        ((((HashSet.builder).hasher).sharedCollector true).withCapacity 0).build K
  Except.map (fun es => { values with elems := es }) (buildSetLoop values.elems s)

/-- An external serializer's incremental-collection mechanism (`collect_map`
/ `collect_seq` drive it): from a state, `emit` consumes one item and may
fail; `finish` closes the stream and may fail. `Out` is the serializer's
output (`Sr::Ok`), `E` its error (`Sr::Error`). -/
structure CollectSer (α E Out St : Type) where
  init : St
  emit : St → α → Except E St
  finish : St → Except E Out

/-- One pass of the collection mechanism over the iterated items, also
returning the trace of items actually handed to `emit` (each item is
emitted at most once; nothing after a failure is emitted). -/
def collectTrace {α E Out St : Type} (sr : CollectSer α E Out St) :
    List α → St → List α × Except E Out
  | [], st => ([], sr.finish st)
  | a :: rest, st =>
    match sr.emit st a with
    | Except.ok st2 =>
        let r := collectTrace sr rest st2
        (a :: r.1, r.2)
    | Except.error e => ([a], Except.error e)

/-- The state of the collection mechanism after emitting a list of items. -/
def runEmits {α E Out St : Type} (sr : CollectSer α E Out St) : St → List α → Except E St
  | st, [] => Except.ok st
  | st, a :: rest =>
    match sr.emit st a with
    | Except.ok st2 => runEmits sr st2 rest
    | Except.error e => Except.error e

/-- `serializer.collect_map(self)` over the pinned map reference
(src/serde_impls.rs:28-33 via 43-48): `pin` the map once, feed every
`(key, value)` item of the guarded view to the serializer, and return the
serializer's result together with the container as it stands after the
call (`serialize` takes the container by shared reference and only
iterates it). -/
def serializeMap {K V E Out St : Type} (m : HashMap K V)
    (sr : CollectSer (K × V) E Out St) :
    (List (K × V) × Except E Out) × HashMap K V :=
  let pinned := m.entries
  (collectTrace sr pinned sr.init, m)

/-- `serializer.collect_seq(self)` over the pinned set reference
(src/serde_impls.rs:119-124 via 133-138). -/
def serializeSet {K E Out St : Type} (s : HashSet K)
    (sr : CollectSer K E Out St) :
    (List K × Except E Out) × HashSet K :=
  let pinned := s.elems
  (collectTrace sr pinned sr.init, s)

/-- Last-occurrence lookup in a pair stream: the value of the last pair for
key `k`, if any. -/
def lastLookup {K V : Type} [DecidableEq K] (l : List (K × V)) (k : K) : Option V :=
  mapGet l.reverse k

/-- The fold that `visit_map`'s loop performs on an all-well-formed stream. -/
def buildMap {K V : Type} [DecidableEq K] (acc : List (K × V)) (l : List (K × V)) :
    List (K × V) :=
  l.foldl (fun a p => listInsert a p.1 p.2) acc

/-- The fold that `visit_seq`'s loop performs on an all-well-formed stream. -/
def buildSet {K : Type} [DecidableEq K] (acc : List K) (l : List K) : List K :=
  l.foldl listSetInsert acc

/-- A concrete collection mechanism over pairs that accepts one item and
fails on the second, used to exhibit mid-stream serializer failure. -/
def failOnSecond : CollectSer (Nat × Nat) Unit Nat Nat :=
  { init := 0
    emit := fun st _ => if st = 0 then Except.ok 1 else Except.error ()
    finish := fun st => Except.ok st }

/-- A concrete collection mechanism over elements that accepts one item and
fails on the second. -/
def failOnSecondElem : CollectSer Nat Unit Nat Nat :=
  { init := 0
    emit := fun st _ => if st = 0 then Except.ok 1 else Except.error ()
    finish := fun st => Except.ok st }

section Lemmas

variable {K V E Out St : Type}

theorem mapGet_nil [DecidableEq K] (k : K) : mapGet ([] : List (K × V)) k = none := rfl

theorem mapGet_cons [DecidableEq K] (p : K × V) (l : List (K × V)) (k : K) :
    mapGet (p :: l) k = if p.1 = k then some p.2 else mapGet l k := by
  by_cases h : p.1 = k <;> simp [mapGet, List.find?, h]

theorem mapGet_append [DecidableEq K] (l1 l2 : List (K × V)) (k : K) :
    mapGet (l1 ++ l2) k =
      match mapGet l1 k with
      | some v => some v
      | none => mapGet l2 k := by
  induction l1 with
  | nil => simp [mapGet_nil]
  | cons p l ih =>
    by_cases h : p.1 = k <;> simp [mapGet_cons, h, ih]

theorem mapGet_eq_none_iff [DecidableEq K] (l : List (K × V)) (k : K) :
    mapGet l k = none ↔ k ∉ mapKeys l := by
  induction l with
  | nil => simp [mapGet_nil, mapKeys]
  | cons p l ih =>
    rw [mapGet_cons]
    by_cases h : p.1 = k
    · subst h
      simp [mapKeys]
    · rw [if_neg h, ih]
      simp only [mapKeys, List.map_cons, List.mem_cons, not_or]
      constructor
      · intro hk
        exact ⟨fun hc => h hc.symm, hk⟩
      · intro hk
        exact hk.2

theorem mapGet_eq_some_iff [DecidableEq K] (l : List (K × V))
    (hnd : (mapKeys l).Nodup) (k : K) (v : V) :
    mapGet l k = some v ↔ (k, v) ∈ l := by
  induction l with
  | nil => simp [mapGet_nil]
  | cons p l ih =>
    have hnd2 : (mapKeys l).Nodup := (List.nodup_cons.mp hnd).2
    have hp : p.1 ∉ mapKeys l := (List.nodup_cons.mp hnd).1
    rw [mapGet_cons]
    by_cases h : p.1 = k
    · subst h
      have hnotin : (p.1, v) ∉ l := fun hc => hp (List.mem_map.mpr ⟨(p.1, v), hc, rfl⟩)
      simp only [if_pos rfl, List.mem_cons]
      constructor
      · intro hv
        exact Or.inl (by cases p; simpa using hv.symm)
      · rintro (hc | hc)
        · cases p; simpa using congrArg Prod.snd hc.symm
        · exact (hnotin hc).elim
    · rw [if_neg h, ih hnd2]
      simp only [List.mem_cons]
      constructor
      · intro hc
        exact Or.inr hc
      · rintro (hc | hc)
        · exact (h (congrArg Prod.fst hc).symm).elim
        · exact hc

theorem mapGet_listInsert [DecidableEq K] (l : List (K × V)) (k : K) (v : V) (k2 : K) :
    mapGet (listInsert l k v) k2 = if k = k2 then some v else mapGet l k2 := by
  induction l with
  | nil => by_cases h : k = k2 <;> simp [listInsert, mapGet_cons, mapGet_nil, h]
  | cons p l ih =>
    simp only [listInsert]
    by_cases hp : p.1 = k
    · rw [if_pos hp, mapGet_cons, mapGet_cons]
      by_cases h : k = k2
      · simp [h]
      · have hp2 : ¬ p.1 = k2 := fun hc => h (hp.symm.trans hc)
        simp [h, hp2]
    · rw [if_neg hp, mapGet_cons, mapGet_cons, ih]
      by_cases h : k = k2
      · have hp2 : ¬ p.1 = k2 := fun hc => hp (hc.trans h.symm)
        simp [h, hp2]
      · simp [h]

theorem lastLookup_nil [DecidableEq K] (k : K) : lastLookup ([] : List (K × V)) k = none := rfl

theorem lastLookup_cons [DecidableEq K] (p : K × V) (l : List (K × V)) (k : K) :
    lastLookup (p :: l) k =
      match lastLookup l k with
      | some v => some v
      | none => if p.1 = k then some p.2 else none := by
  unfold lastLookup
  rw [List.reverse_cons, mapGet_append]
  by_cases h : p.1 = k <;> simp [mapGet_cons, h, mapGet_nil]

theorem mapGet_buildMap [DecidableEq K] (l : List (K × V)) (acc : List (K × V)) (k : K) :
    mapGet (buildMap acc l) k =
      match lastLookup l k with
      | some v => some v
      | none => mapGet acc k := by
  induction l generalizing acc with
  | nil => simp [buildMap, lastLookup_nil]
  | cons p l ih =>
    rw [lastLookup_cons]
    have : buildMap acc (p :: l) = buildMap (listInsert acc p.1 p.2) l := rfl
    rw [this, ih]
    cases hl : lastLookup l k with
    | some v => rfl
    | none =>
      rw [mapGet_listInsert]
      by_cases h : p.1 = k <;> simp [h]

theorem mapGet_buildMap_nil [DecidableEq K] (l : List (K × V)) (k : K) :
    mapGet (buildMap [] l) k = lastLookup l k := by
  rw [mapGet_buildMap]
  cases lastLookup l k <;> simp [mapGet_nil]

theorem lastLookup_eq_mapGet_of_nodup [DecidableEq K] (l : List (K × V))
    (hnd : (mapKeys l).Nodup) (k : K) : lastLookup l k = mapGet l k := by
  induction l with
  | nil => rfl
  | cons p l ih =>
    have hnd2 : (mapKeys l).Nodup := (List.nodup_cons.mp hnd).2
    have hp : p.1 ∉ mapKeys l := (List.nodup_cons.mp hnd).1
    rw [lastLookup_cons, ih hnd2, mapGet_cons]
    by_cases h : p.1 = k
    · have : mapGet l k = none := (mapGet_eq_none_iff l k).mpr (h ▸ hp)
      simp [this, h]
    · cases hl : mapGet l k <;> simp [h]

theorem mapKeys_perm {l1 l2 : List (K × V)} (h : List.Perm l1 l2) :
    List.Perm (mapKeys l1) (mapKeys l2) :=
  h.map Prod.fst

theorem mapGet_perm [DecidableEq K] {l1 l2 : List (K × V)} (h : List.Perm l1 l2)
    (hnd : (mapKeys l1).Nodup) (k : K) : mapGet l1 k = mapGet l2 k := by
  have hnd2 : (mapKeys l2).Nodup := (mapKeys_perm h).nodup_iff.mp hnd
  cases hg : mapGet l1 k with
  | none =>
    symm
    rw [mapGet_eq_none_iff] at hg ⊢
    intro hk
    exact hg ((mapKeys_perm h).mem_iff.mpr hk)
  | some v =>
    symm
    exact (mapGet_eq_some_iff l2 hnd2 k v).mpr
      (h.mem_iff.mp ((mapGet_eq_some_iff l1 hnd k v).mp hg))

theorem mem_listSetInsert [DecidableEq K] (l : List K) (k x : K) :
    x ∈ listSetInsert l k ↔ x ∈ l ∨ x = k := by
  unfold listSetInsert
  by_cases h : k ∈ l
  · simp [h]
    intro hx
    exact hx ▸ h
  · simp [h]

theorem mem_buildSet [DecidableEq K] (l : List K) (acc : List K) (x : K) :
    x ∈ buildSet acc l ↔ x ∈ acc ∨ x ∈ l := by
  induction l generalizing acc with
  | nil => simp [buildSet]
  | cons a l ih =>
    have : buildSet acc (a :: l) = buildSet (listSetInsert acc a) l := rfl
    rw [this, ih, mem_listSetInsert]
    constructor
    · rintro ((h | h) | h)
      · exact Or.inl h
      · exact Or.inr (by simp [h])
      · exact Or.inr (by simp [h])
    · rintro (h | h)
      · exact Or.inl (Or.inl h)
      · rcases List.mem_cons.mp h with h | h
        · exact Or.inl (Or.inr h)
        · exact Or.inr h

theorem buildMapLoop_ok [DecidableEq K] (l : List (K × V)) (acc : List (K × V)) :
    buildMapLoop (E := E) acc (l.map Except.ok) = Except.ok (buildMap acc l) := by
  induction l generalizing acc with
  | nil => rfl
  | cons p l ih => simpa [buildMapLoop, buildMap] using ih (listInsert acc p.1 p.2)

theorem buildSetLoop_ok [DecidableEq K] (l : List K) (acc : List K) :
    buildSetLoop (E := E) acc (l.map Except.ok) = Except.ok (buildSet acc l) := by
  induction l generalizing acc with
  | nil => rfl
  | cons a l ih => simpa [buildSetLoop, buildSet] using ih (listSetInsert acc a)

theorem buildMapLoop_error_iff [DecidableEq K] (s : List (Except E (K × V)))
    (acc : List (K × V)) (e : E) :
    buildMapLoop acc s = Except.error e ↔ firstError s = some e := by
  induction s generalizing acc with
  | nil => simp [buildMapLoop, firstError]
  | cons a s ih =>
    cases a with
    | ok p => simpa [buildMapLoop, firstError] using ih (listInsert acc p.1 p.2)
    | error e2 => simp [buildMapLoop, firstError]

theorem buildSetLoop_error_iff [DecidableEq K] (s : List (Except E K))
    (acc : List K) (e : E) :
    buildSetLoop acc s = Except.error e ↔ firstError s = some e := by
  induction s generalizing acc with
  | nil => simp [buildSetLoop, firstError]
  | cons a s ih =>
    cases a with
    | ok k => simpa [buildSetLoop, firstError] using ih (listSetInsert acc k)
    | error e2 => simp [buildSetLoop, firstError]

theorem except_map_map {α β γ : Type} (f : β → γ) (g : α → β) (x : Except E α) :
    Except.map f (Except.map g x) = Except.map (fun a => f (g a)) x := by
  cases x <;> rfl

theorem except_map_error_iff {α β : Type} (f : α → β) (x : Except E α) (e : E) :
    Except.map f x = Except.error e ↔ x = Except.error e := by
  cases x <;> simp [Except.map]

theorem visitMap_entries [DecidableEq K] (hint : Option Nat)
    (s : List (Except E (K × V))) :
    Except.map HashMap.entries (visitMap hint s) = buildMapLoop [] s := by
  cases hint <;> cases h : buildMapLoop ([] : List (K × V)) (E := E) s <;>
    simp [visitMap, HashMap.withCapacityAndHasher, HashMap.defaultMap, h, Except.map]

theorem visitSeqPrivate_elems [DecidableEq K] (hint : Option Nat)
    (s : List (Except E K)) :
    Except.map HashSet.elems (visitSeqPrivate hint s) = buildSetLoop [] s := by
  cases hint <;> cases h : buildSetLoop ([] : List K) (E := E) s <;>
    simp [visitSeqPrivate, HashSet.withCapacityAndHasher, HashSet.defaultSet, h, Except.map]

theorem visitSeqShared_elems [DecidableEq K] (hint : Option Nat)
    (s : List (Except E K)) :
    Except.map HashSet.elems (visitSeqShared hint s) = buildSetLoop [] s := by
  cases hint <;> cases h : buildSetLoop ([] : List K) (E := E) s <;>
    simp [visitSeqShared, HashSet.builder, SetBuilder.hasher, SetBuilder.sharedCollector,
      SetBuilder.withCapacity, SetBuilder.build, h, Except.map]

theorem collectTrace_ok_iff {α : Type} (sr : CollectSer α E Out St) (l : List α) (st0 : St) :
    (∃ o, (collectTrace sr l st0).2 = Except.ok o)
      ↔ (∃ st o, runEmits sr st0 l = Except.ok st ∧ sr.finish st = Except.ok o) := by
  induction l generalizing st0 with
  | nil =>
    simp only [collectTrace, runEmits]
    constructor
    · rintro ⟨o, ho⟩
      exact ⟨st0, o, rfl, ho⟩
    · rintro ⟨st, o, hst, ho⟩
      exact ⟨o, (Except.ok.inj hst).symm ▸ ho⟩
  | cons a l ih =>
    cases he : sr.emit st0 a with
    | ok st2 =>
      simp only [collectTrace, runEmits, he]
      exact ih st2
    | error e =>
      simp [collectTrace, runEmits, he]

theorem collectTrace_error {α : Type} (sr : CollectSer α E Out St) (l1 : List α)
    (a : α) (l2 : List α) (st0 st : St) (e : E)
    (h1 : runEmits sr st0 l1 = Except.ok st) (h2 : sr.emit st a = Except.error e) :
    collectTrace sr (l1 ++ a :: l2) st0 = (l1 ++ [a], Except.error e) := by
  induction l1 generalizing st0 with
  | nil =>
    have hst : st0 = st := Except.ok.inj h1
    subst hst
    simp [collectTrace, h2]
  | cons b l1 ih =>
    cases he : sr.emit st0 b with
    | ok st2 =>
      rw [runEmits, he] at h1
      have := ih st2 h1
      simp [collectTrace, he, this]
    | error e2 =>
      rw [runEmits, he] at h1
      exact absurd h1 (by simp)

theorem collectTrace_done {α : Type} (sr : CollectSer α E Out St) (l : List α)
    (st0 st : St) (h1 : runEmits sr st0 l = Except.ok st) :
    collectTrace sr l st0 = (l, sr.finish st) := by
  induction l generalizing st0 with
  | nil =>
    have hst : st0 = st := Except.ok.inj h1
    subst hst
    rfl
  | cons a l ih =>
    cases he : sr.emit st0 a with
    | ok st2 =>
      rw [runEmits, he] at h1
      simp [collectTrace, he, ih st2 h1]
    | error e2 =>
      rw [runEmits, he] at h1
      exact absurd h1 (by simp)

end Lemmas

section Claims

variable {K V E Out St : Type}

/-- C1: For every finite map M whose keys and values are serializable,
deserializing the serialization of M yields a map equal to M: the key sets
are equal and, for every key, the associated values are equal, independent
of the iteration order the serializer happened to use. Serializing `m`
emits its entries in whatever iteration order the pinned view produces, so
the serialized stream is an arbitrary permutation `l` of `m.entries`;
deserializing that stream through `MapVisitor::visit_map` (any size hint)
succeeds and yields a map with the same per-key lookup and the same key
membership as `m`. -/
theorem C1_map_round_trip [DecidableEq K] (m : HashMap K V) (l : List (K × V))
    (hint : Option Nat) (k : K) (hWF : (mapKeys m.entries).Nodup)
    (hperm : List.Perm l m.entries) :
    Except.map (fun m2 => (mapGet m2.entries k, decide (k ∈ mapKeys m2.entries)))
        (visitMap (E := E) hint (l.map Except.ok))
      = Except.ok (mapGet m.entries k, decide (k ∈ mapKeys m.entries)) := by
  have hnd_l : (mapKeys l).Nodup := (mapKeys_perm hperm).nodup_iff.mpr hWF
  rw [← except_map_map (fun es => (mapGet es k, decide (k ∈ mapKeys es))) HashMap.entries,
    visitMap_entries, buildMapLoop_ok]
  have hget : mapGet (buildMap [] l) k = mapGet m.entries k := by
    rw [mapGet_buildMap_nil, lastLookup_eq_mapGet_of_nodup l hnd_l]
    exact mapGet_perm hperm hnd_l k
  have hmem : (k ∈ mapKeys (buildMap [] l)) ↔ (k ∈ mapKeys m.entries) := by
    have h1 : (k ∈ mapKeys (buildMap [] l)) ↔ ¬ mapGet (buildMap [] l) k = none := by
      rw [mapGet_eq_none_iff]
      exact not_not.symm
    have h2 : (k ∈ mapKeys m.entries) ↔ ¬ mapGet m.entries k = none := by
      rw [mapGet_eq_none_iff]
      exact not_not.symm
    rw [h1, h2, hget]
  have hdec : decide (k ∈ mapKeys (buildMap [] l)) = decide (k ∈ mapKeys m.entries) :=
    decide_eq_decide.mpr hmem
  simp only [Except.map, hget, hdec]

/-- C1 witness: the concrete map {0 → 4, 1 → 3} serialized in the order
[(1,3), (0,4)] and deserialized with hint 0 agrees with the original at
key 0. -/
theorem C1_witness :
    (mapKeys (⟨[(0, 4), (1, 3)], 0⟩ : HashMap Nat Nat).entries).Nodup
    ∧ List.Perm [(1, 3), (0, 4)] (⟨[(0, 4), (1, 3)], 0⟩ : HashMap Nat Nat).entries
    ∧ Except.map
        (fun m2 => (mapGet m2.entries 0, decide (0 ∈ mapKeys m2.entries)))
        (visitMap (E := Unit) (some 0) ([(1, 3), (0, 4)].map Except.ok))
      = Except.ok (mapGet (⟨[(0, 4), (1, 3)], 0⟩ : HashMap Nat Nat).entries 0,
          decide (0 ∈ mapKeys (⟨[(0, 4), (1, 3)], 0⟩ : HashMap Nat Nat).entries)) :=
  ⟨by decide, by decide,
    C1_map_round_trip ⟨[(0, 4), (1, 3)], 0⟩ [(1, 3), (0, 4)] (some 0) 0
      (by decide) (by decide)⟩

/-- C2: For every finite set S of serializable elements, deserializing the
serialization of S yields a set equal to S under membership equality.
Serializing `st` emits its elements in arbitrary iteration order `l`;
deserializing through the private-scope `SetVisitor::visit_seq` (any size
hint) succeeds and yields a set with the same membership as `st`. -/
theorem C2_set_round_trip [DecidableEq K] (st : HashSet K) (l : List K)
    (hint : Option Nat) (x : K) (hperm : List.Perm l st.elems) :
    Except.map (fun s2 => decide (x ∈ s2.elems))
        (visitSeqPrivate (E := E) hint (l.map Except.ok))
      = Except.ok (decide (x ∈ st.elems)) := by
  rw [← except_map_map (fun es => decide (x ∈ es)) HashSet.elems,
    visitSeqPrivate_elems, buildSetLoop_ok]
  have hmem : (x ∈ buildSet [] l) ↔ (x ∈ st.elems) := by
    rw [mem_buildSet]
    simp only [List.not_mem_nil, false_or]
    exact hperm.mem_iff
  simp only [Except.map, decide_eq_decide.mpr hmem]

/-- C2 witness: the concrete set {0, 1, 2} serialized in the order
[2, 0, 1] and deserialized with no hint agrees with the original on
membership of 1. -/
theorem C2_witness :
    List.Perm [2, 0, 1] (⟨[0, 1, 2], 0, ReclamationScope.exclusive⟩ : HashSet Nat).elems
    ∧ Except.map (fun s2 => decide (1 ∈ s2.elems))
        (visitSeqPrivate (E := Unit) none ([2, 0, 1].map Except.ok))
      = Except.ok
          (decide (1 ∈ (⟨[0, 1, 2], 0, ReclamationScope.exclusive⟩ : HashSet Nat).elems)) :=
  ⟨by decide,
    C2_set_round_trip ⟨[0, 1, 2], 0, ReclamationScope.exclusive⟩ [2, 0, 1] none 1 (by decide)⟩

/-- C3: In shared-scope mode, set deserialization explicitly creates a new
reference-counted reclamation scope (satisfying the claim's "creates a new
one or accepts one supplied by the caller" disjunction by its first
disjunct), and builds the set through the configuration step that
specifies hasher, capacity hint, and the shared scope handle together:
whenever the shared-scope visitor succeeds, the returned set has a
newly-created shared scope, its capacity is the size hint (0 when absent),
and the empty container it populated is exactly the output of the builder
chain `builder().hasher(default).shared_collector(new).capacity(hint).build()`. -/
theorem C3_shared_scope_construction [DecidableEq K] (hint : Option Nat)
    (s : List (Except E K)) (hs : HashSet K)
    (hok : visitSeqShared hint s = Except.ok hs) :
    hs.scope = ReclamationScope.shared true
    ∧ hs.capacity = hint.getD 0
    ∧ ((((HashSet.builder).hasher).sharedCollector true).withCapacity (hint.getD 0))
        = ⟨true, some true, hint.getD 0⟩
    ∧ ({ elems := [], capacity := hs.capacity, scope := hs.scope } : HashSet K)
        = (⟨true, some true, hint.getD 0⟩ : SetBuilder).build K := by
  cases hint with
  | none =>
    simp only [visitSeqShared, HashSet.builder, SetBuilder.hasher, SetBuilder.sharedCollector,
      SetBuilder.withCapacity, SetBuilder.build] at hok
    cases h : buildSetLoop ([] : List K) (E := E) s with
    | ok es =>
      rw [h] at hok
      simp only [Except.map] at hok
      cases hok
      exact ⟨rfl, rfl, rfl, rfl⟩
    | error e =>
      rw [h] at hok
      exact absurd hok (by simp [Except.map])
  | some size =>
    simp only [visitSeqShared, HashSet.builder, SetBuilder.hasher, SetBuilder.sharedCollector,
      SetBuilder.withCapacity, SetBuilder.build] at hok
    cases h : buildSetLoop ([] : List K) (E := E) s with
    | ok es =>
      rw [h] at hok
      simp only [Except.map] at hok
      cases hok
      exact ⟨rfl, rfl, rfl, rfl⟩
    | error e =>
      rw [h] at hok
      exact absurd hok (by simp [Except.map])

/-- C3 witness: deserializing the element stream [5] with hint 2 in
shared-scope mode yields a set with a newly-created shared scope and
capacity 2. -/
theorem C3_witness :
    visitSeqShared (some 2) ([Except.ok 5] : List (Except Unit Nat))
      = Except.ok (⟨[5], 2, ReclamationScope.shared true⟩ : HashSet Nat)
    ∧ ((⟨[5], 2, ReclamationScope.shared true⟩ : HashSet Nat).scope
          = ReclamationScope.shared true
        ∧ (⟨[5], 2, ReclamationScope.shared true⟩ : HashSet Nat).capacity = (some 2).getD 0
        ∧ ((((HashSet.builder).hasher).sharedCollector true).withCapacity ((some 2).getD 0))
            = ⟨true, some true, (some 2).getD 0⟩
        ∧ ({ elems := [],
             capacity := (⟨[5], 2, ReclamationScope.shared true⟩ : HashSet Nat).capacity,
             scope := (⟨[5], 2, ReclamationScope.shared true⟩ : HashSet Nat).scope } : HashSet Nat)
            = (⟨true, some true, (some 2).getD 0⟩ : SetBuilder).build Nat) :=
  ⟨by decide,
    C3_shared_scope_construction (some 2) ([Except.ok 5] : List (Except Unit Nat))
      (⟨[5], 2, ReclamationScope.shared true⟩ : HashSet Nat) (by decide)⟩

/-- C4: For every key/value pair stream, the map produced by
`MapVisitor::visit_map` holds, for each key, the value of that key's last
occurrence in the stream (`lastLookup` looks the key up in the reversed
stream): later pairs overwrite earlier pairs for the same key. -/
theorem C4_last_write_wins [DecidableEq K] (stream : List (K × V))
    (hint : Option Nat) (k : K) :
    Except.map (fun m2 => mapGet m2.entries k)
        (visitMap (E := E) hint (stream.map Except.ok))
      = Except.ok (lastLookup stream k) := by
  rw [← except_map_map (fun es => mapGet es k) HashMap.entries,
    visitMap_entries, buildMapLoop_ok]
  simp only [Except.map, mapGet_buildMap_nil]

/-- C5: For every element stream, the set produced by the set builder (both
scope modes) has the same membership as the set produced from the
deduplicated stream, and inserting an already-present element is
idempotent. -/
theorem C5_duplicate_collapse [DecidableEq K] (l : List K) (hint : Option Nat)
    (x : K) :
    (Except.map (fun s => decide (x ∈ s.elems))
        (visitSeqPrivate (E := E) hint (l.map Except.ok))
      = Except.map (fun s => decide (x ∈ s.elems))
          (visitSeqPrivate (E := E) hint (l.dedup.map Except.ok)))
    ∧ (Except.map (fun s => decide (x ∈ s.elems))
        (visitSeqShared (E := E) hint (l.map Except.ok))
      = Except.map (fun s => decide (x ∈ s.elems))
          (visitSeqShared (E := E) hint (l.dedup.map Except.ok)))
    ∧ (∀ es : List K, x ∈ es → listSetInsert es x = es) := by
  have hmem : (x ∈ buildSet [] l) ↔ (x ∈ buildSet [] l.dedup) := by
    rw [mem_buildSet, mem_buildSet, List.mem_dedup]
  have hdec : decide (x ∈ buildSet [] l) = decide (x ∈ buildSet [] l.dedup) :=
    decide_eq_decide.mpr hmem
  refine ⟨?_, ?_, ?_⟩
  · rw [← except_map_map (fun es => decide (x ∈ es)) HashSet.elems,
      visitSeqPrivate_elems, buildSetLoop_ok,
      ← except_map_map (fun es => decide (x ∈ es)) HashSet.elems,
      visitSeqPrivate_elems, buildSetLoop_ok]
    simp only [Except.map, hdec]
  · rw [← except_map_map (fun es => decide (x ∈ es)) HashSet.elems,
      visitSeqShared_elems, buildSetLoop_ok,
      ← except_map_map (fun es => decide (x ∈ es)) HashSet.elems,
      visitSeqShared_elems, buildSetLoop_ok]
    simp only [Except.map, hdec]
  · intro es hx
    simp [listSetInsert, hx]

/-- C5 witness: the stream [1, 1, 2] and its deduplication [1, 2] build
membership-equal sets in both scope modes, and inserting 1 into the
already-containing set [1] leaves it unchanged. -/
theorem C5_witness :
    (Except.map (fun s => decide (1 ∈ s.elems))
        (visitSeqPrivate (E := Unit) none (([1, 1, 2] : List Nat).map Except.ok))
      = Except.map (fun s => decide (1 ∈ s.elems))
          (visitSeqPrivate (E := Unit) none (([1, 1, 2] : List Nat).dedup.map Except.ok)))
    ∧ (Except.map (fun s => decide (1 ∈ s.elems))
        (visitSeqShared (E := Unit) none (([1, 1, 2] : List Nat).map Except.ok))
      = Except.map (fun s => decide (1 ∈ s.elems))
          (visitSeqShared (E := Unit) none (([1, 1, 2] : List Nat).dedup.map Except.ok)))
    ∧ ((1 : Nat) ∈ ([1] : List Nat) ∧ listSetInsert [1] 1 = [1]) :=
  ⟨(C5_duplicate_collapse (E := Unit) [1, 1, 2] none 1).1,
    (C5_duplicate_collapse (E := Unit) [1, 1, 2] none 1).2.1,
    by decide, (C5_duplicate_collapse (E := Unit) [1, 1, 2] none 1).2.2 [1] (by decide)⟩

/-- C6: For every input item stream, the map builder and both set builders
produce containers whose contents are independent of the size hint: any
two hints (absent, 0, the true count, or a mismatched count) yield the
same entry list / element list, and the same error on a failing stream.
The hint only sets the `capacity` field (pre-sizing). -/
theorem C6_hint_independence [DecidableEq K] (h1 h2 : Option Nat)
    (s : List (Except E (K × V))) (t : List (Except E K)) :
    Except.map HashMap.entries (visitMap h1 s) = Except.map HashMap.entries (visitMap h2 s)
    ∧ Except.map HashSet.elems (visitSeqPrivate h1 t)
        = Except.map HashSet.elems (visitSeqPrivate h2 t)
    ∧ Except.map HashSet.elems (visitSeqShared h1 t)
        = Except.map HashSet.elems (visitSeqShared h2 t) :=
  ⟨(visitMap_entries h1 s).trans (visitMap_entries h2 s).symm,
    (visitSeqPrivate_elems h1 t).trans (visitSeqPrivate_elems h2 t).symm,
    (visitSeqShared_elems h1 t).trans (visitSeqShared_elems h2 t).symm⟩

/-- C7: deserialization returns an error if and only if the decoder errored,
and the returned error is exactly the first error the decoder reported;
since the result is an `Except`, no container value accompanies an error
(the partially-built container is discarded) and exactly one error value
is surfaced, with no retry. Holds for the map visitor and both set
visitors, for every size hint. -/
theorem C7_decoder_error_propagation [DecidableEq K] (hint : Option Nat)
    (s : List (Except E (K × V))) (t : List (Except E K)) (e : E) :
    (visitMap hint s = Except.error e ↔ firstError s = some e)
    ∧ (visitSeqPrivate hint t = Except.error e ↔ firstError t = some e)
    ∧ (visitSeqShared hint t = Except.error e ↔ firstError t = some e) := by
  refine ⟨?_, ?_, ?_⟩
  · rw [← buildMapLoop_error_iff s ([] : List (K × V)) e, ← visitMap_entries hint s]
    exact (except_map_error_iff HashMap.entries (visitMap hint s) e).symm
  · rw [← buildSetLoop_error_iff t ([] : List K) e, ← visitSeqPrivate_elems hint t]
    exact (except_map_error_iff HashSet.elems (visitSeqPrivate hint t) e).symm
  · rw [← buildSetLoop_error_iff t ([] : List K) e, ← visitSeqShared_elems hint t]
    exact (except_map_error_iff HashSet.elems (visitSeqShared hint t) e).symm

/-- C8: serialization error propagation. `serialize` feeds the pinned
view's items to the external serializer's collection mechanism one at a
time. The call succeeds exactly when the collection mechanism succeeds
(every `emit` and the final `finish` return ok); and if `emit` fails on
some item mid-stream, the call returns exactly that error, having handed
the serializer each preceding item exactly once and the failing item once,
with nothing after it and no retry (the emission trace is the stream
prefix ending at the failing item). Holds for both the map and the set. -/
theorem C8_serializer_error_propagation (m : HashMap K V) (hs : HashSet K)
    (sr : CollectSer (K × V) E Out St) (sr2 : CollectSer K E Out St) :
    ((∃ o, (serializeMap m sr).1.2 = Except.ok o)
        ↔ (∃ st o, runEmits sr sr.init m.entries = Except.ok st
            ∧ sr.finish st = Except.ok o))
    ∧ (∀ l1 a l2 st e, m.entries = l1 ++ a :: l2 →
        runEmits sr sr.init l1 = Except.ok st → sr.emit st a = Except.error e →
        (serializeMap m sr).1.2 = Except.error e
          ∧ (serializeMap m sr).1.1 = l1 ++ [a])
    ∧ ((∃ o, (serializeSet hs sr2).1.2 = Except.ok o)
        ↔ (∃ st o, runEmits sr2 sr2.init hs.elems = Except.ok st
            ∧ sr2.finish st = Except.ok o))
    ∧ (∀ l1 a l2 st e, hs.elems = l1 ++ a :: l2 →
        runEmits sr2 sr2.init l1 = Except.ok st → sr2.emit st a = Except.error e →
        (serializeSet hs sr2).1.2 = Except.error e
          ∧ (serializeSet hs sr2).1.1 = l1 ++ [a]) := by
  refine ⟨?_, ?_, ?_, ?_⟩
  · exact collectTrace_ok_iff sr m.entries sr.init
  · intro l1 a l2 st e hsplit h1 h2
    have hct := collectTrace_error sr l1 a l2 sr.init st e h1 h2
    constructor
    · show (collectTrace sr m.entries sr.init).2 = Except.error e
      rw [hsplit, hct]
    · show (collectTrace sr m.entries sr.init).1 = l1 ++ [a]
      rw [hsplit, hct]
  · exact collectTrace_ok_iff sr2 hs.elems sr2.init
  · intro l1 a l2 st e hsplit h1 h2
    have hct := collectTrace_error sr2 l1 a l2 sr2.init st e h1 h2
    constructor
    · show (collectTrace sr2 hs.elems sr2.init).2 = Except.error e
      rw [hsplit, hct]
    · show (collectTrace sr2 hs.elems sr2.init).1 = l1 ++ [a]
      rw [hsplit, hct]

/-- C8 witness: serializing the map {(1,2), (3,4)} and the set {7, 8} with
a serializer that fails on its second item returns exactly that error,
after emitting the first item once and the failing item once. -/
theorem C8_witness :
    ((⟨[(1, 2), (3, 4)], 0⟩ : HashMap Nat Nat).entries = [(1, 2)] ++ (3, 4) :: [])
    ∧ runEmits failOnSecond failOnSecond.init [(1, 2)] = Except.ok 1
    ∧ failOnSecond.emit 1 (3, 4) = Except.error ()
    ∧ ((serializeMap (⟨[(1, 2), (3, 4)], 0⟩ : HashMap Nat Nat) failOnSecond).1.2
          = Except.error ()
        ∧ (serializeMap (⟨[(1, 2), (3, 4)], 0⟩ : HashMap Nat Nat) failOnSecond).1.1
          = [(1, 2)] ++ [(3, 4)])
    ∧ ((serializeSet (⟨[7, 8], 0, ReclamationScope.exclusive⟩ : HashSet Nat)
            failOnSecondElem).1.2 = Except.error ()
        ∧ (serializeSet (⟨[7, 8], 0, ReclamationScope.exclusive⟩ : HashSet Nat)
            failOnSecondElem).1.1 = [7] ++ [8]) :=
  ⟨rfl, by decide, by decide,
    (C8_serializer_error_propagation (⟨[(1, 2), (3, 4)], 0⟩ : HashMap Nat Nat)
      (⟨[7, 8], 0, ReclamationScope.exclusive⟩ : HashSet Nat)
      failOnSecond failOnSecondElem).2.1 [(1, 2)] (3, 4) [] 1 () rfl (by decide) (by decide),
    (C8_serializer_error_propagation (⟨[(1, 2), (3, 4)], 0⟩ : HashMap Nat Nat)
      (⟨[7, 8], 0, ReclamationScope.exclusive⟩ : HashSet Nat)
      failOnSecond failOnSecondElem).2.2.2 [7] 8 [] 1 () rfl (by decide) (by decide)⟩

/-- C9: serializing is read-only. `serialize` pins the container, feeds the
view's items to the serializer, and returns the container as it stood:
whether the serializer succeeds or fails, the container after the call has
the same per-key lookup and the same key set (map), and the same
membership (set), as before. -/
theorem C9_serialize_read_only [DecidableEq K] (m : HashMap K V)
    (sr : CollectSer (K × V) E Out St) (k : K) (hs : HashSet K)
    (sr2 : CollectSer K E Out St) (x : K) :
    mapGet ((serializeMap m sr).2).entries k = mapGet m.entries k
    ∧ mapKeys ((serializeMap m sr).2).entries = mapKeys m.entries
    ∧ ((x ∈ ((serializeSet hs sr2).2).elems) ↔ (x ∈ hs.elems)) :=
  ⟨rfl, rfl, Iff.rfl⟩

/-- C10: for every element stream and every size-hint value, the
private-scope set visitor and the shared-scope (Arc collector) set visitor
return the same element list (hence membership-equal sets) and the same
error on a failing stream; the two implementations differ only in
reclamation-scope construction (`scope`/`capacity` fields), never in
contents. -/
theorem C10_private_shared_visitor_equivalence [DecidableEq K] (hint : Option Nat)
    (s : List (Except E K)) :
    Except.map HashSet.elems (visitSeqPrivate hint s)
      = Except.map HashSet.elems (visitSeqShared hint s) :=
  (visitSeqPrivate_elems hint s).trans (visitSeqShared_elems hint s).symm

end Claims

end Papaya
